import Mathlib

/-!
Verification of the tiered isolation lifecycle subsystem of the `aiga`
micro-frontend framework: the iframe pool (`src/core/iframe-pool/pool.ts`),
the keep-alive registry (`src/core/iframe-pool/keep-alive-manager.ts`),
the typed RPC channel (`src/core/rpc/channel.ts`) and the `<mf-app>`
lifecycle serialization (`mf-app.ts`).

DOM handles (`HTMLIFrameElement`, `Window`) are modelled by numeric
identities; `Date.now()` becomes an explicit `now : Nat` argument; code
that throws returns `Except`.  JavaScript `Array.prototype.sort` is
stable, so "sort then take index 0" is embedded as a first-minimum scan.
-/

/-! ## Execution context pool (`src/core/iframe-pool/pool.ts`) -/

/-- One pooled iframe; `el` is the numeric identity of the underlying
`HTMLIFrameElement`. -/
structure PooledIframe where
  el : Nat
  inUse : Bool
  appId : Option String
  createdAt : Nat
  lastUsedAt : Nat
deriving DecidableEq, Repr

/-- State of `IframePool`. `opts` from `IframePoolOptions` is flattened into
`initialSize`/`maxSize` (`maxAlive` is consumed by the keep-alive manager, not
by the pool). `nextEl` generates fresh identities for the `document.createElement`
calls. -/
structure IframePool where
  pool : List PooledIframe
  initialSize : Nat
  maxSize : Nat
  disposed : Bool
  nextEl : Nat
deriving DecidableEq, Repr

/-- `createPooledIframe`: a fresh blank iframe, idle, timestamped `now`. -/
def IframePool.createPooledIframe (s : IframePool) (now : Nat) :
    PooledIframe × IframePool :=
  (⟨s.nextEl, false, none, now, now⟩, { s with nextEl := s.nextEl + 1 })

/-- `prewarm(count)`: push up to `count` blank iframes, stopping at `maxSize`. -/
def IframePool.prewarm (s : IframePool) (now : Nat) : Nat → IframePool
  | 0 => s
  | count + 1 =>
    if s.maxSize ≤ s.pool.length then s
    else
      let (e, s') := s.createPooledIframe now
      IframePool.prewarm { s' with pool := s'.pool ++ [e] } now count

/-- The constructor: empty pool, then `prewarm(initialSize)`. -/
def IframePool.new (initialSize maxSize now : Nat) : IframePool :=
  IframePool.prewarm
    { pool := [], initialSize := initialSize, maxSize := maxSize,
      disposed := false, nextEl := 0 } now initialSize

/-- `evictLRU`: filter the idle entries and sort ascending by `lastUsedAt`,
taking the first.  JavaScript sort is stable, so the result is the first idle
entry (in insertion order) with minimal `lastUsedAt`; embedded as a
first-minimum fold. -/
def IframePool.evictLRU (pool : List PooledIframe) : Option PooledIframe :=
  match pool.filter (fun p => !p.inUse) with
  | [] => none
  | e :: rest =>
    some (rest.foldl (fun best p => if p.lastUsedAt < best.lastUsedAt then p else best) e)

/-- In-place mutation of the entry returned by `pool.find(p => !p.inUse)`:
mark the first idle entry as acquired. -/
def markFirstIdle (appId : String) (now : Nat) :
    List PooledIframe → List PooledIframe
  | [] => []
  | p :: rest =>
    if !p.inUse then
      { p with inUse := true, appId := some appId, lastUsedAt := now } :: rest
    else p :: markFirstIdle appId now rest

/-- In-place mutation of the entry object returned by `evictLRU`: mark the
first entry carrying that identity. -/
def markByEl (el : Nat) (appId : String) (now : Nat) :
    List PooledIframe → List PooledIframe
  | [] => []
  | p :: rest =>
    if p.el == el then
      { p with inUse := true, appId := some appId, lastUsedAt := now } :: rest
    else p :: markByEl el appId now rest

/-- `acquire(appId)`: throws if disposed; reuses the first idle entry; else
creates below `maxSize`; else tries `evictLRU`; else force-creates beyond
`maxSize` (soft overflow).  Returns the acquired iframe identity. -/
def IframePool.acquire (s : IframePool) (appId : String) (now : Nat) :
    Except String (Nat × IframePool) :=
  if s.disposed then .error "IframePool has been disposed"
  else
    match s.pool.find? (fun p => !p.inUse) with
    | some entry =>
      .ok (entry.el, { s with pool := markFirstIdle appId now s.pool })
    | none =>
      if s.pool.length < s.maxSize then
        let (e, s') := s.createPooledIframe now
        .ok (e.el, { s' with
          pool := s'.pool ++ [{ e with inUse := true, appId := some appId, lastUsedAt := now }] })
      else
        match IframePool.evictLRU s.pool with
        | some entry =>
          .ok (entry.el, { s with pool := markByEl entry.el appId now s.pool })
        | none =>
          let (e, s') := s.createPooledIframe now
          .ok (e.el, { s' with
            pool := s'.pool ++ [{ e with inUse := true, appId := some appId, lastUsedAt := now }] })

/-- In-place mutation of the entry returned by `pool.find(p => p.el === el)`:
reset the first entry with that identity to idle (the `resetIframe` call only
touches the DOM node). -/
def releaseFirst (el : Nat) (now : Nat) :
    List PooledIframe → List PooledIframe
  | [] => []
  | p :: rest =>
    if p.el == el then
      { p with inUse := false, appId := none, lastUsedAt := now } :: rest
    else p :: releaseFirst el now rest

/-- `release(el)`: no-op when the identity is untracked; otherwise reset the
entry to idle.  The subsequent `replenish()` only schedules an asynchronous
`prewarm` (modelled as a separate trace operation below). -/
def IframePool.release (s : IframePool) (el : Nat) (now : Nat) : IframePool :=
  match s.pool.find? (fun p => p.el == el) with
  | none => s
  | some _ => { s with pool := releaseFirst el now s.pool }

/-- `splice(idx, 1)` at the index returned by `findIndex`: drop the first
entry with the given identity. -/
def removeFirstByEl (el : Nat) : List PooledIframe → List PooledIframe
  | [] => []
  | p :: rest => if p.el == el then rest else p :: removeFirstByEl el rest

/-- `remove(el)`: no-op when `findIndex` misses; otherwise destroy and splice
out the entry (again, replenishment is asynchronous). -/
def IframePool.remove (s : IframePool) (el : Nat) : IframePool :=
  match s.pool.find? (fun p => p.el == el) with
  | none => s
  | some _ => { s with pool := removeFirstByEl el s.pool }

/-- `stats()`. -/
def IframePool.stats (s : IframePool) : Nat × Nat × Nat :=
  let inUse := s.pool.countP (fun p => p.inUse)
  (s.pool.length, inUse, s.pool.length - inUse)

/-- `dispose()`: destroy every entry (DOM effects) and clear the list. -/
def IframePool.dispose (s : IframePool) : IframePool :=
  { s with disposed := true, pool := [] }

/-- Number of in-use entries. -/
def countInUse (l : List PooledIframe) : Nat := l.countP (fun p => p.inUse)

/-! ### Pool operation traces (for the claims quantifying over sequences) -/

/-- One pool operation.  `replenishFire` is the asynchronous
`requestIdleCallback`/`setTimeout` callback scheduled by `replenish()` finally
running `prewarm(deficit)`; the deficit was computed at scheduling time, so the
trace carries it as data (any `Nat` is allowed, over-approximating every
schedule). -/
inductive PoolOp where
  | acq (appId : String) (now : Nat)
  | rel (el : Nat) (now : Nat)
  | rem (el : Nat)
  | replenishFire (deficit : Nat) (now : Nat)
deriving DecidableEq, Repr

/-- Instrumented run state: the pool plus counters for issued `acquire` calls,
releases that actually returned an in-use entry, and forced-overflow creates. -/
structure PoolRun where
  s : IframePool
  acquires : Nat
  matchedReleases : Nat
  overflows : Nat
deriving DecidableEq, Repr

/-- Whether an `acquire` issued in state `s` takes the forced-overflow branch
(no idle entry, at or beyond capacity). -/
def overflowAcquire (s : IframePool) : Bool :=
  !s.disposed && (s.pool.find? (fun p => !p.inUse)).isNone
    && !(s.pool.length < s.maxSize)

/-- One instrumented step. -/
def PoolRun.step (r : PoolRun) : PoolOp → PoolRun
  | .acq appId now =>
    let r' := match r.s.acquire appId now with
      | .ok (_, s') => { r with s := s' }
      | .error _ => r
    { r' with acquires := r.acquires + 1,
              overflows := r.overflows + (if overflowAcquire r.s then 1 else 0) }
  | .rel el now =>
    match r.s.pool.find? (fun p => p.el == el) with
    | none => r
    | some p =>
      { r with s := r.s.release el now,
               matchedReleases := r.matchedReleases + (if p.inUse then 1 else 0) }
  | .rem el => { r with s := r.s.remove el }
  | .replenishFire deficit now =>
    { r with s := IframePool.prewarm r.s now deficit }

/-- Run a trace of pool operations from a freshly constructed pool. -/
def PoolRun.run (initialSize maxSize now0 : Nat) (ops : List PoolOp) : PoolRun :=
  ops.foldl PoolRun.step
    { s := IframePool.new initialSize maxSize now0,
      acquires := 0, matchedReleases := 0, overflows := 0 }

/-! ### Helper lemmas about the pool -/

theorem markFirstIdle_countP (appId : String) (now : Nat) :
    ∀ l : List PooledIframe, (l.find? (fun p => !p.inUse)).isSome →
      countInUse (markFirstIdle appId now l) = countInUse l + 1 := by
  intro l
  induction l with
  | nil => simp [List.find?]
  | cons p rest ih =>
    by_cases hp : p.inUse
    · intro h
      simp only [markFirstIdle, hp, Bool.not_true, if_neg, Bool.false_eq_true,
        not_false_eq_true]
      have h' : ((rest.find? (fun q => !q.inUse)).isSome) := by
        simpa [List.find?, hp] using h
      simp only [countInUse, List.countP_cons, hp]
      have := ih h'
      simp only [countInUse] at this
      omega
    · intro _
      simp only [markFirstIdle, hp, Bool.not_false, if_pos]
      simp [countInUse, List.countP_cons, hp]

theorem markFirstIdle_length (appId : String) (now : Nat) :
    ∀ l : List PooledIframe, (markFirstIdle appId now l).length = l.length := by
  intro l
  induction l with
  | nil => rfl
  | cons p rest ih =>
    by_cases hp : p.inUse <;> simp [markFirstIdle, hp, ih]

theorem releaseFirst_countP (el now : Nat) :
    ∀ (l : List PooledIframe) (p : PooledIframe),
      l.find? (fun q => q.el == el) = some p →
      countInUse (releaseFirst el now l) + (if p.inUse then 1 else 0)
        = countInUse l := by
  intro l
  induction l with
  | nil => intro p h; simp [List.find?] at h
  | cons q rest ih =>
    intro p h
    by_cases hq : q.el == el
    · have hqp : q = p := by
        have : some q = some p := by simpa [List.find?, hq] using h
        exact Option.some.inj this
      subst hqp
      simp only [releaseFirst, hq, if_pos]
      by_cases hu : q.inUse <;> simp [countInUse, List.countP_cons, hu]
    · have h' : rest.find? (fun r => r.el == el) = some p := by
        simpa [List.find?, hq] using h
      simp only [releaseFirst, hq, Bool.false_eq_true, not_false_eq_true, if_neg]
      have := ih p h'
      by_cases hu : q.inUse <;>
        simp only [countInUse, List.countP_cons, hu] at this ⊢ <;> omega

theorem removeFirstByEl_countP (el : Nat) :
    ∀ l : List PooledIframe,
      countInUse (removeFirstByEl el l) ≤ countInUse l := by
  intro l
  induction l with
  | nil => simp [removeFirstByEl]
  | cons q rest ih =>
    by_cases hq : q.el == el
    · simp only [removeFirstByEl, hq, if_pos]
      by_cases hu : q.inUse <;> simp [countInUse, List.countP_cons, hu]
    · simp only [removeFirstByEl, hq, Bool.false_eq_true, not_false_eq_true, if_neg]
      simp only [countInUse, List.countP_cons] at ih ⊢
      omega

theorem removeFirstByEl_length (el : Nat) :
    ∀ l : List PooledIframe,
      (removeFirstByEl el l).length ≤ l.length := by
  intro l
  induction l with
  | nil => simp [removeFirstByEl]
  | cons q rest ih =>
    by_cases hq : q.el == el
    · simp only [removeFirstByEl, hq, if_pos, List.length_cons]
      omega
    · simp only [removeFirstByEl, hq, Bool.false_eq_true, not_false_eq_true,
        if_neg, List.length_cons]
      omega

/-- `prewarm` only appends idle entries: the in-use count is unchanged. -/
theorem prewarm_countInUse (now : Nat) :
    ∀ (n : Nat) (s : IframePool),
      countInUse (IframePool.prewarm s now n).pool = countInUse s.pool := by
  intro n
  induction n with
  | zero => intro s; rfl
  | succ k ih =>
    intro s
    by_cases h : s.maxSize ≤ s.pool.length
    · simp [IframePool.prewarm, h]
    · simp only [IframePool.prewarm, IframePool.createPooledIframe]
      rw [if_neg h, ih]
      simp [countInUse, List.countP_append]

/-- `prewarm` never pushes the size beyond `max (current size) maxSize`. -/
theorem prewarm_length (now : Nat) :
    ∀ (n : Nat) (s : IframePool),
      (IframePool.prewarm s now n).pool.length ≤ max s.pool.length s.maxSize := by
  intro n
  induction n with
  | zero => intro s; exact le_max_left _ _
  | succ k ih =>
    intro s
    by_cases h : s.maxSize ≤ s.pool.length
    · simp only [IframePool.prewarm, h, if_pos]; exact le_max_left _ _
    · simp only [IframePool.prewarm, IframePool.createPooledIframe]
      rw [if_neg h]
      have := ih { s with
        pool := s.pool ++ [⟨s.nextEl, false, none, now, now⟩],
        nextEl := s.nextEl + 1 }
      simp only [List.length_append, List.length_cons, List.length_nil] at this
      have hlt : s.pool.length < s.maxSize := lt_of_not_le h
      omega

theorem prewarm_fields (now : Nat) :
    ∀ (n : Nat) (s : IframePool),
      (IframePool.prewarm s now n).maxSize = s.maxSize ∧
      (IframePool.prewarm s now n).disposed = s.disposed := by
  intro n
  induction n with
  | zero => intro s; exact ⟨rfl, rfl⟩
  | succ k ih =>
    intro s
    by_cases h : s.maxSize ≤ s.pool.length
    · simp [IframePool.prewarm, h]
    · simp only [IframePool.prewarm, IframePool.createPooledIframe]
      rw [if_neg h]
      exact ih _

/-- When `find` saw no idle entry, `evictLRU` has nothing to scan. -/
theorem evictLRU_none_of_no_idle (l : List PooledIframe)
    (h : l.find? (fun p => !p.inUse) = none) :
    IframePool.evictLRU l = none := by
  have : l.filter (fun p => !p.inUse) = [] := by
    rw [List.filter_eq_nil_iff]
    intro a ha
    have := List.find?_eq_none.mp h a ha
    simpa using this
  simp [IframePool.evictLRU, this]

theorem releaseFirst_length (el now : Nat) :
    ∀ l : List PooledIframe, (releaseFirst el now l).length = l.length := by
  intro l
  induction l with
  | nil => rfl
  | cons q rest ih =>
    by_cases hq : q.el == el <;> simp [releaseFirst, hq, ih]

/-- The iframe identity that `acquire` hands back (projection used to state
counterexamples). -/
def acquiredEl (s : IframePool) (appId : String) (now : Nat) : Option Nat :=
  match s.acquire appId now with
  | .ok (e, _) => some e
  | .error _ => none

/-- A pool at `maxSize = 2` with both entries in use (no idle entry). -/
def c1pool : IframePool :=
  { pool := [⟨0, true, some "A", 0, 10⟩, ⟨1, true, some "B", 0, 20⟩],
    initialSize := 0, maxSize := 2, disposed := false, nextEl := 2 }

/-- Claim C1, counterexample: in a pool where no idle entry exists and the
size equals `maxSize`, `acquire` does NOT evict and reuse an idle entry of
least `lastUsedAt` (there is none to reuse): the claim's conclusion, that the
returned context is a minimal-`lastUsedAt` idle entry of the prior pool,
fails at this concrete input even though its premise holds. -/
theorem pool_lru_claim_counterexample :
    (c1pool.pool.all (fun p => p.inUse) = true ∧
     c1pool.pool.length = c1pool.maxSize ∧ c1pool.disposed = false) ∧
    ¬ ∃ p ∈ c1pool.pool, p.inUse = false ∧
        (∀ q ∈ c1pool.pool, q.inUse = false → p.lastUsedAt ≤ q.lastUsedAt) ∧
        acquiredEl c1pool "C" 100 = some p.el := by
  decide

/-- Claim C1 (amended): when `acquire(ownerId)` is called, no idle entry
exists and the pool size equals `maxSize`, nothing is evicted — the LRU scan
(`evictLRU`) ranges over idle entries only and returns no candidate — and
`acquire` instead force-creates a fresh context, appending it to the pool
(which transiently exceeds `maxSize`) while every existing entry is left
unchanged. -/
theorem pool_acquire_no_idle_at_capacity (s : IframePool) (appId : String) (now : Nat)
    (h1 : s.pool.all (fun p => p.inUse) = true)
    (h2 : s.pool.length = s.maxSize)
    (h3 : s.disposed = false) :
    IframePool.evictLRU s.pool = none ∧
    s.acquire appId now = .ok (s.nextEl,
      { s with pool := s.pool ++ [⟨s.nextEl, true, some appId, now, now⟩],
               nextEl := s.nextEl + 1 }) := by
  have hfind : s.pool.find? (fun p => !p.inUse) = none := by
    rw [List.find?_eq_none]
    intro a ha
    have := List.all_eq_true.mp h1 a ha
    simp_all
  have hev := evictLRU_none_of_no_idle s.pool hfind
  refine ⟨hev, ?_⟩
  unfold IframePool.acquire
  rw [hfind]
  simp only [h3, Bool.false_eq_true, if_false]
  rw [if_neg (by omega), hev]
  simp [IframePool.createPooledIframe, h3]

/-- Witness for `pool_acquire_no_idle_at_capacity` at the concrete pool. -/
theorem pool_acquire_no_idle_at_capacity_witness :
    IframePool.evictLRU c1pool.pool = none ∧
    c1pool.acquire "C" 100 = .ok (c1pool.nextEl,
      { c1pool with
          pool := c1pool.pool ++ [⟨c1pool.nextEl, true, some "C", 100, 100⟩],
          nextEl := c1pool.nextEl + 1 }) :=
  pool_acquire_no_idle_at_capacity c1pool "C" 100 (by decide) (by decide) (by decide)

/-- Claim C9: after `dispose()` the entry list is emptied; a subsequent
`acquire` throws the disposed-pool error synchronously (and, being an error,
produces no new context and no successor state); `release` and `remove` on
the disposed (empty) pool are silent no-ops. -/
theorem pool_dispose_behavior (s : IframePool) (a : String) (now el now' el' : Nat) :
    s.dispose.pool = [] ∧
    s.dispose.acquire a now = .error "IframePool has been disposed" ∧
    s.dispose.release el now' = s.dispose ∧
    s.dispose.remove el' = s.dispose := by
  refine ⟨rfl, ?_, ?_, ?_⟩
  · simp [IframePool.dispose, IframePool.acquire]
  · simp [IframePool.dispose, IframePool.release, List.find?]
  · simp [IframePool.dispose, IframePool.remove, List.find?]

/-- A small pool used to witness the untracked-identity no-op claim. -/
def c10pool : IframePool :=
  { pool := [⟨0, true, some "A", 0, 10⟩, ⟨1, false, none, 0, 20⟩],
    initialSize := 1, maxSize := 3, disposed := false, nextEl := 2 }

/-- Claim C10: `release` and `remove` called with a context identity tracked
by no pool entry return without error and leave the pool state entirely
unchanged (same entries, same order, same flags and timestamps). -/
theorem pool_untracked_release_remove_noop (s : IframePool) (el now : Nat)
    (h : ∀ p ∈ s.pool, p.el ≠ el) :
    s.release el now = s ∧ s.remove el = s := by
  have hfind : s.pool.find? (fun p => p.el == el) = none := by
    rw [List.find?_eq_none]
    intro a ha
    simpa using h a ha
  constructor
  · unfold IframePool.release; rw [hfind]
  · unfold IframePool.remove; rw [hfind]

/-- Witness for `pool_untracked_release_remove_noop`. -/
theorem pool_untracked_release_remove_noop_witness :
    c10pool.release 99 5 = c10pool ∧ c10pool.remove 99 = c10pool :=
  pool_untracked_release_remove_noop c10pool 99 5 (by decide)

/-! ### The trace invariant behind claim C7 -/

/-- Inductive invariant of instrumented pool runs: the configured `maxSize`
and the not-disposed flag are stable, the in-use count stays below the number
of `acquire` calls minus matched releases, and the size exceeds `maxSize` by
at most the number of forced-overflow acquires. -/
def PoolInv (M : Nat) (r : PoolRun) : Prop :=
  r.s.maxSize = M ∧ r.s.disposed = false ∧
  countInUse r.s.pool + r.matchedReleases ≤ r.acquires ∧
  r.s.pool.length ≤ M + r.overflows

theorem poolInv_step (M : Nat) (r : PoolRun) (op : PoolOp)
    (h : PoolInv M r) : PoolInv M (r.step op) := by
  obtain ⟨hM, hd, hcnt, hlen⟩ := h
  cases op with
  | acq a now =>
    rcases hf : r.s.pool.find? (fun p => !p.inUse) with _ | e
    · have hev := evictLRU_none_of_no_idle _ hf
      by_cases hlt : r.s.pool.length < r.s.maxSize
      · have hov : (if overflowAcquire r.s then (1:Nat) else 0) = 0 := by
          simp [overflowAcquire, hf, hlt]
        simp only [PoolRun.step, IframePool.acquire, hd, Bool.false_eq_true,
          if_false, hf, if_pos hlt, IframePool.createPooledIframe, hov]
        refine ⟨hM, rfl, ?_, ?_⟩
        · simp only [countInUse, List.countP_append, List.countP_cons,
            List.countP_nil] at hcnt ⊢
          simp at hcnt ⊢
          omega
        · simp only [List.length_append, List.length_cons, List.length_nil]
          omega
      · have hov : (if overflowAcquire r.s then (1:Nat) else 0) = 1 := by
          simp [overflowAcquire, hf, hlt, hd]
        simp only [PoolRun.step, IframePool.acquire, hd, Bool.false_eq_true,
          if_false, hf, if_neg hlt, hev, IframePool.createPooledIframe, hov]
        refine ⟨hM, rfl, ?_, ?_⟩
        · simp only [countInUse, List.countP_append, List.countP_cons,
            List.countP_nil] at hcnt ⊢
          simp at hcnt ⊢
          omega
        · simp only [List.length_append, List.length_cons, List.length_nil]
          omega
    · have hsome : (r.s.pool.find? (fun p => !p.inUse)).isSome := by
        rw [hf]; rfl
      have hov : (if overflowAcquire r.s then (1:Nat) else 0) = 0 := by
        simp [overflowAcquire, hf]
      simp only [PoolRun.step, IframePool.acquire, hd, Bool.false_eq_true,
        if_false, hf, hov]
      refine ⟨hM, rfl, ?_, ?_⟩
      · have := markFirstIdle_countP a now r.s.pool hsome
        simp only [countInUse] at this hcnt ⊢
        simp at this hcnt ⊢
        omega
      · simp only [markFirstIdle_length]
        simp
        omega
  | rel el now =>
    rcases hf : r.s.pool.find? (fun p => p.el == el) with _ | p
    · simp only [PoolRun.step, hf]
      exact ⟨hM, hd, hcnt, hlen⟩
    · simp only [PoolRun.step, IframePool.release, hf]
      refine ⟨hM, hd, ?_, ?_⟩
      · have := releaseFirst_countP el now r.s.pool p hf
        by_cases hu : p.inUse <;> simp only [hu] at this ⊢ <;> simp at this ⊢ <;> omega
      · simp only [releaseFirst_length]
        omega
  | rem el =>
    rcases hf : r.s.pool.find? (fun p => p.el == el) with _ | p
    · simp only [PoolRun.step, IframePool.remove, hf]
      exact ⟨hM, hd, hcnt, hlen⟩
    · simp only [PoolRun.step, IframePool.remove, hf]
      refine ⟨hM, hd, ?_, ?_⟩
      · have := removeFirstByEl_countP el r.s.pool
        simp only [countInUse] at this hcnt ⊢
        omega
      · have := removeFirstByEl_length el r.s.pool
        dsimp only
        omega
  | replenishFire d now =>
    simp only [PoolRun.step]
    obtain ⟨hM', hd'⟩ := prewarm_fields now d r.s
    refine ⟨hM' ▸ hM, hd' ▸ hd, ?_, ?_⟩
    · dsimp only
      rw [prewarm_countInUse]
      omega
    · have := prewarm_length now d r.s
      rw [hM] at this
      dsimp only
      omega

theorem poolInv_run (M : Nat) (r : PoolRun) (h : PoolInv M r) :
    ∀ ops : List PoolOp, PoolInv M (ops.foldl PoolRun.step r) := by
  intro ops
  induction ops generalizing r with
  | nil => exact h
  | cons op rest ih => exact ih _ (poolInv_step M r op h)

/-- Claim C7: along every trace of `acquire`/`release`/`remove` (and
asynchronous replenishment firings) started from a freshly constructed pool,
the in-use count never exceeds the number of `acquire` calls without a
matching release, and the total size never exceeds `maxSize` plus the number
of forced-overflow acquires — in particular `total ≤ maxSize` at all times in
traces without forced overflow.  (Applies to every prefix, since the trace is
universally quantified.) -/
theorem pool_trace_inuse_and_capacity (initialSize maxSize now0 : Nat)
    (ops : List PoolOp) :
    countInUse (PoolRun.run initialSize maxSize now0 ops).s.pool
        + (PoolRun.run initialSize maxSize now0 ops).matchedReleases
      ≤ (PoolRun.run initialSize maxSize now0 ops).acquires ∧
    (PoolRun.run initialSize maxSize now0 ops).s.pool.length
      ≤ maxSize + (PoolRun.run initialSize maxSize now0 ops).overflows ∧
    ((PoolRun.run initialSize maxSize now0 ops).overflows = 0 →
      (PoolRun.run initialSize maxSize now0 ops).s.pool.length ≤ maxSize) := by
  have base : PoolInv maxSize
      { s := IframePool.new initialSize maxSize now0,
        acquires := 0, matchedReleases := 0, overflows := 0 } := by
    obtain ⟨hM, hd⟩ := prewarm_fields now0 initialSize
      { pool := [], initialSize := initialSize, maxSize := maxSize,
        disposed := false, nextEl := 0 }
    refine ⟨hM, hd, ?_, ?_⟩
    · rw [IframePool.new, prewarm_countInUse]
      simp [countInUse]
    · have := prewarm_length now0 initialSize
        { pool := [], initialSize := initialSize, maxSize := maxSize,
          disposed := false, nextEl := 0 }
      simpa [IframePool.new] using this
  obtain ⟨_, _, hcnt, hlen⟩ := poolInv_run maxSize _ base ops
  simp only [PoolRun.run]
  exact ⟨hcnt, hlen, fun h0 => by rw [h0] at hlen; simpa using hlen⟩

/-! ## Keep-alive registry (`src/core/iframe-pool/keep-alive-manager.ts`) -/

inductive KeepAlivePriority where
  | low
  | normal
  | high
deriving DecidableEq, Repr

/-- `PRIORITY_WEIGHT`. -/
def PRIORITY_WEIGHT : KeepAlivePriority → Nat
  | .low => 0
  | .normal => 1
  | .high => 2

/-- `KeepAliveEntry`; the held iframe is a numeric identity. -/
structure KeepAliveEntry where
  appId : String
  name : String
  priority : KeepAlivePriority
  iframe : Option Nat
  lastActiveAt : Nat
  visitCount : Nat
  keepAliveSince : Nat
deriving DecidableEq, Repr

/-- `KeepAliveManager` state.  The `Map<string, KeepAliveEntry>` is embedded
as a list in insertion order (JavaScript `Map` iteration order); updating an
existing key keeps its position, deletion removes it, insertion appends. -/
structure KeepAliveManager where
  entries : List KeepAliveEntry
  maxAlive : Nat
  autoPromoteAfter : Nat
deriving DecidableEq, Repr

/-- `maybePromote`: `normal` entries visited at least `autoPromoteAfter`
times become `high`. -/
def maybePromote (threshold : Nat) (e : KeepAliveEntry) : KeepAliveEntry :=
  if e.priority = .normal ∧ threshold ≤ e.visitCount then
    { e with priority := .high }
  else e

/-- Mutate in place the entry stored under key `i` (the first — and, for a
map, only — list element with that `appId`). -/
def updateFirstByAppId (i : String) (f : KeepAliveEntry → KeepAliveEntry) :
    List KeepAliveEntry → List KeepAliveEntry
  | [] => []
  | e :: rest =>
    if e.appId == i then f e :: rest else e :: updateFirstByAppId i f rest

/-- `Map.delete(i)`. -/
def removeFirstByAppId (i : String) :
    List KeepAliveEntry → List KeepAliveEntry
  | [] => []
  | e :: rest => if e.appId == i then rest else e :: removeFirstByAppId i rest

/-- The comparator of `evictOne`'s sort: priority weight ascending, then
`lastActiveAt` ascending (strict version; the stable sort keeps insertion
order on full ties). -/
def lexLt (a b : KeepAliveEntry) : Bool :=
  PRIORITY_WEIGHT a.priority < PRIORITY_WEIGHT b.priority ||
  (PRIORITY_WEIGHT a.priority == PRIORITY_WEIGHT b.priority &&
    a.lastActiveAt < b.lastActiveAt)

/-- `sorted[0]` of the stable sort by `lexLt`: the first entry (in insertion
order) that is minimal for (priority weight, lastActiveAt). -/
def pickVictim : List KeepAliveEntry → Option KeepAliveEntry
  | [] => none
  | e :: rest =>
    some (rest.foldl (fun best p => if lexLt p best then p else best) e)

/-- `try { onEvict(victim) } catch (err) { console.error(...) }`:
whether the callback returns or throws, execution continues and nothing is
rethrown, so its `Except` outcome is discarded. -/
def tryCallback (cb : KeepAliveEntry → Except String Unit)
    (e : KeepAliveEntry) : Unit :=
  match cb e with
  | .ok _ => ()
  | .error _ => ()

/-- `evictOne()`: pick and delete the lowest-priority least-recently-active
entry, then run the cleanup callback under try/catch.  Returns the evicted id
(`none` if empty), the list of callback invocations made, and the new state.
`cb` stands for the caller-supplied `onEvict` (or the default iframe
destruction). -/
def KeepAliveManager.evictOne (m : KeepAliveManager)
    (cb : KeepAliveEntry → Except String Unit) :
    Option String × List KeepAliveEntry × KeepAliveManager :=
  match pickVictim m.entries with
  | none => (none, [], m)
  | some victim =>
    let _ := tryCallback cb victim
    (some victim.appId, [victim],
     { m with entries := removeFirstByAppId victim.appId m.entries })

/-- `add(appId, name, iframe, priority)`: refresh idempotently when already
tracked (recency, visit count, context reference, maybe promotion); otherwise
evict one entry when at `maxAlive` capacity, then append the new entry with
`visitCount = 1`. -/
def KeepAliveManager.add (m : KeepAliveManager)
    (cb : KeepAliveEntry → Except String Unit)
    (appId name : String) (iframe : Option Nat)
    (priority : KeepAlivePriority) (now : Nat) :
    Option String × List KeepAliveEntry × KeepAliveManager :=
  match m.entries.find? (fun e => e.appId == appId) with
  | some _ =>
    let refresh := fun e => maybePromote m.autoPromoteAfter
      { e with lastActiveAt := now, visitCount := e.visitCount + 1,
               keepAliveSince := now, iframe := iframe }
    (none, [], { m with entries := updateFirstByAppId appId refresh m.entries })
  | none =>
    let (evictedId, invoked, m') :=
      if m.maxAlive ≤ m.entries.length then m.evictOne cb
      else (none, [], m)
    (evictedId, invoked,
     { m' with entries := m'.entries ++
        [⟨appId, name, priority, iframe, now, 1, now⟩] })

/-- `recordVisit(appId)`: bump recency and visit count, maybe promote. -/
def KeepAliveManager.recordVisit (m : KeepAliveManager)
    (appId : String) (now : Nat) : KeepAliveManager :=
  match m.entries.find? (fun e => e.appId == appId) with
  | none => m
  | some _ =>
    let bump := fun e => maybePromote m.autoPromoteAfter
      { e with lastActiveAt := now, visitCount := e.visitCount + 1 }
    { m with entries := updateFirstByAppId appId bump m.entries }

/-- `setPriority(appId, priority)`: the only operation that can demote. -/
def KeepAliveManager.setPriority (m : KeepAliveManager)
    (appId : String) (priority : KeepAlivePriority) : KeepAliveManager :=
  match m.entries.find? (fun e => e.appId == appId) with
  | none => m
  | some _ =>
    let setp := fun e => { e with priority := priority }
    { m with entries := updateFirstByAppId appId setp m.entries }

/-- `remove(appId)`. -/
def KeepAliveManager.remove (m : KeepAliveManager) (appId : String) :
    Option KeepAliveEntry × KeepAliveManager :=
  (m.entries.find? (fun e => e.appId == appId),
   { m with entries := removeFirstByAppId appId m.entries })

/-! ### Helper lemmas about the registry -/

/-- The non-strict lexicographic order (priority weight, lastActiveAt). -/
def lePriorityRecency (a b : KeepAliveEntry) : Prop :=
  PRIORITY_WEIGHT a.priority < PRIORITY_WEIGHT b.priority ∨
  (PRIORITY_WEIGHT a.priority = PRIORITY_WEIGHT b.priority ∧
    a.lastActiveAt ≤ b.lastActiveAt)

theorem lePR_refl (a : KeepAliveEntry) : lePriorityRecency a a :=
  Or.inr ⟨rfl, le_refl _⟩

theorem lePR_trans {a b c : KeepAliveEntry}
    (h1 : lePriorityRecency a b) (h2 : lePriorityRecency b c) :
    lePriorityRecency a c := by
  unfold lePriorityRecency at *
  omega

theorem lePR_of_lexLt {a b : KeepAliveEntry} (h : lexLt a b = true) :
    lePriorityRecency a b := by
  simp only [lexLt, Bool.or_eq_true, Bool.and_eq_true, decide_eq_true_eq,
    beq_iff_eq] at h
  unfold lePriorityRecency
  omega

theorem lePR_of_not_lexLt {a b : KeepAliveEntry} (h : lexLt a b = false) :
    lePriorityRecency b a := by
  simp only [lexLt, Bool.or_eq_false_iff, Bool.and_eq_false_iff,
    decide_eq_false_iff_not, beq_eq_false_iff_ne, ne_eq] at h
  unfold lePriorityRecency
  omega

theorem foldl_min_spec (rest : List KeepAliveEntry) :
    ∀ acc : KeepAliveEntry,
      (rest.foldl (fun best p => if lexLt p best then p else best) acc = acc ∨
        rest.foldl (fun best p => if lexLt p best then p else best) acc ∈ rest) ∧
      lePriorityRecency
        (rest.foldl (fun best p => if lexLt p best then p else best) acc) acc ∧
      ∀ x ∈ rest,
        lePriorityRecency
          (rest.foldl (fun best p => if lexLt p best then p else best) acc) x := by
  induction rest with
  | nil =>
    intro acc
    exact ⟨Or.inl rfl, lePR_refl acc, by simp⟩
  | cons p rest ih =>
    intro acc
    simp only [List.foldl_cons]
    rcases hpl : lexLt p acc with _ | _
    · obtain ⟨hmem, hacc, hall⟩ := ih acc
      rw [if_neg (by simp [hpl])]
      refine ⟨?_, hacc, ?_⟩
      · rcases hmem with h | h
        · exact Or.inl h
        · exact Or.inr (List.mem_cons_of_mem _ h)
      · intro x hx
        rcases List.mem_cons.mp hx with rfl | hx'
        · exact lePR_trans hacc (lePR_of_not_lexLt hpl)
        · exact hall x hx'
    · obtain ⟨hmem, hacc, hall⟩ := ih p
      rw [if_pos (by simp [hpl])]
      refine ⟨?_, ?_, ?_⟩
      · rcases hmem with h | h
        · exact Or.inr (by rw [h]; exact List.mem_cons_self _ _)
        · exact Or.inr (List.mem_cons_of_mem _ h)
      · exact lePR_trans hacc (lePR_of_lexLt hpl)
      · intro x hx
        rcases List.mem_cons.mp hx with rfl | hx'
        · exact hacc
        · exact hall x hx'

theorem pickVictim_spec (l : List KeepAliveEntry) (v : KeepAliveEntry)
    (h : pickVictim l = some v) :
    v ∈ l ∧ ∀ x ∈ l, lePriorityRecency v x := by
  cases l with
  | nil => simp [pickVictim] at h
  | cons e rest =>
    have hv : rest.foldl (fun best p => if lexLt p best then p else best) e = v := by
      simpa [pickVictim] using h
    obtain ⟨hmem, hacc, hall⟩ := foldl_min_spec rest e
    rw [hv] at hmem hacc hall
    constructor
    · rcases hmem with h' | h'
      · exact h' ▸ List.mem_cons_self _ _
      · exact List.mem_cons_of_mem _ h'
    · intro x hx
      rcases List.mem_cons.mp hx with rfl | hx'
      · exact hacc
      · exact hall x hx'

theorem removeFirstByAppId_length (i : String) :
    ∀ l : List KeepAliveEntry, (∃ e ∈ l, e.appId = i) →
      (removeFirstByAppId i l).length + 1 = l.length := by
  intro l
  induction l with
  | nil => rintro ⟨e, he, _⟩; simp at he
  | cons q rest ih =>
    rintro ⟨e, he, hei⟩
    by_cases hq : q.appId == i
    · simp [removeFirstByAppId, hq]
    · have he' : e ∈ rest := by
        rcases List.mem_cons.mp he with rfl | h
        · exact absurd (by simp [hei]) hq
        · exact h
      simp only [removeFirstByAppId, hq, Bool.false_eq_true, not_false_eq_true,
        if_neg, List.length_cons]
      rw [← ih ⟨e, he', hei⟩]

theorem mem_removeFirstByAppId (i : String) :
    ∀ l : List KeepAliveEntry, ∀ e' ∈ removeFirstByAppId i l, e' ∈ l := by
  intro l
  induction l with
  | nil => simp [removeFirstByAppId]
  | cons q rest ih =>
    intro e' he'
    by_cases hq : q.appId == i
    · simp only [removeFirstByAppId, hq, if_pos] at he'
      exact List.mem_cons_of_mem _ he'
    · simp only [removeFirstByAppId, hq, Bool.false_eq_true, not_false_eq_true,
        if_neg, List.mem_cons] at he'
      rcases he' with rfl | h
      · exact List.mem_cons_self _ _
      · exact List.mem_cons_of_mem _ (ih e' h)

theorem mem_updateFirstByAppId (i : String) (f : KeepAliveEntry → KeepAliveEntry) :
    ∀ l : List KeepAliveEntry, ∀ e' ∈ updateFirstByAppId i f l,
      e' ∈ l ∨ ∃ x ∈ l, x.appId = i ∧ e' = f x := by
  intro l
  induction l with
  | nil => simp [updateFirstByAppId]
  | cons q rest ih =>
    intro e' he'
    by_cases hq : q.appId == i
    · simp only [updateFirstByAppId, hq, if_pos, List.mem_cons] at he'
      rcases he' with rfl | h
      · exact Or.inr ⟨q, List.mem_cons_self _ _, by simpa using hq, rfl⟩
      · exact Or.inl (List.mem_cons_of_mem _ h)
    · simp only [updateFirstByAppId, hq, Bool.false_eq_true, not_false_eq_true,
        if_neg, List.mem_cons] at he'
      rcases he' with rfl | h
      · exact Or.inl (List.mem_cons_self _ _)
      · rcases ih e' h with h' | ⟨x, hx, hxi, hex⟩
        · exact Or.inl (List.mem_cons_of_mem _ h')
        · exact Or.inr ⟨x, List.mem_cons_of_mem _ hx, hxi, hex⟩

theorem find?_updateFirstByAppId (i : String) (f : KeepAliveEntry → KeepAliveEntry)
    (hf : ∀ e, (f e).appId = e.appId) :
    ∀ l : List KeepAliveEntry, ∀ e,
      l.find? (fun x => x.appId == i) = some e →
      (updateFirstByAppId i f l).find? (fun x => x.appId == i) = some (f e) := by
  intro l
  induction l with
  | nil => intro e h; simp [List.find?] at h
  | cons q rest ih =>
    intro e h
    by_cases hq : q.appId == i
    · have hqe : q = e := by
        have : some q = some e := by simpa [List.find?, hq] using h
        exact Option.some.inj this
      subst hqe
      simp only [updateFirstByAppId, hq, if_pos]
      have : ((f q).appId == i) = true := by
        rw [hf q]; exact hq
      simp [List.find?, this]
    · have h' : rest.find? (fun x => x.appId == i) = some e := by
        simpa [List.find?, hq] using h
      simp only [updateFirstByAppId, hq, Bool.false_eq_true, not_false_eq_true,
        if_neg]
      have := ih e h'
      simpa [List.find?, hq] using this

theorem nodup_appId_eq {l : List KeepAliveEntry}
    (hnd : (l.map (fun e => e.appId)).Nodup) {a b : KeepAliveEntry}
    (ha : a ∈ l) (hb : b ∈ l) (hab : a.appId = b.appId) : a = b := by
  induction l with
  | nil => simp at ha
  | cons q rest ih =>
    rw [List.map_cons] at hnd
    have hq := (List.nodup_cons.mp hnd).1
    have hrest := (List.nodup_cons.mp hnd).2
    rcases List.mem_cons.mp ha with rfl | ha'
    · rcases List.mem_cons.mp hb with rfl | hb'
      · rfl
      · exact absurd (by rw [hab]; exact List.mem_map_of_mem _ hb') hq
    · rcases List.mem_cons.mp hb with rfl | hb'
      · exact absurd (by rw [← hab]; exact List.mem_map_of_mem _ ha') hq
      · exact ih hrest ha' hb'

theorem maybePromote_weight (threshold : Nat) (e : KeepAliveEntry) :
    PRIORITY_WEIGHT e.priority ≤ PRIORITY_WEIGHT (maybePromote threshold e).priority := by
  unfold maybePromote
  split
  · next h => rw [h.1]; simp [PRIORITY_WEIGHT]
  · exact le_refl _

theorem maybePromote_appId (threshold : Nat) (e : KeepAliveEntry) :
    (maybePromote threshold e).appId = e.appId := by
  unfold maybePromote
  split <;> rfl

/-- An always-succeeding cleanup callback. -/
def cbOk : KeepAliveEntry → Except String Unit := fun _ => .ok ()

/-- An always-throwing cleanup callback. -/
def cbBoom : KeepAliveEntry → Except String Unit := fun _ => .error "boom"

/-- A registry at capacity `maxAlive = 2` holding a `high` and a `normal`
entry. -/
def c4m : KeepAliveManager :=
  { entries := [⟨"a", "A", .high, none, 5, 1, 0⟩, ⟨"b", "B", .normal, none, 3, 1, 0⟩],
    maxAlive := 2, autoPromoteAfter := 3 }

/-- A registry with `maxAlive = 0` (constructible via `{ maxAlive: 0 }`). -/
def c4zero : KeepAliveManager :=
  { entries := [], maxAlive := 0, autoPromoteAfter := 3 }

/-- Claim C4, counterexample: a registry at capacity (`size == maxAlive`,
here both `0`) where `add` of a fresh id evicts nothing and invokes the
cleanup callback zero times (not exactly once), ending above `maxAlive`. -/
theorem keepalive_add_zero_capacity_counterexample :
    (c4zero.entries.length = c4zero.maxAlive ∧
     c4zero.entries.find? (fun e => e.appId == "x") = none) ∧
    (c4zero.add cbOk "x" "X" none .normal 5).1 = none ∧
    (c4zero.add cbOk "x" "X" none .normal 5).2.1 = [] ∧
    (c4zero.add cbOk "x" "X" none .normal 5).2.2.entries.length
      = c4zero.maxAlive + 1 := by
  decide

/-- Claim C4 (amended with `1 ≤ maxAlive`, the counterexample being the
degenerate `maxAlive = 0` registry): `add` of an untracked id on a registry
at capacity evicts exactly one entry — one of globally minimal priority
weight, and of minimal `lastActiveAt` among those — invokes the cleanup
callback exactly once, on that victim, before inserting the new entry
(ending at `maxAlive` again), and its outcome is identical for every
callback, including a throwing one: exceptions are swallowed, never
propagated to the `add` caller. -/
theorem keepalive_add_at_capacity_evicts_lowest (m : KeepAliveManager)
    (cb cb' : KeepAliveEntry → Except String Unit)
    (appId name : String) (iframe : Option Nat)
    (prio : KeepAlivePriority) (now : Nat)
    (hcap : m.entries.length = m.maxAlive)
    (hpos : 1 ≤ m.maxAlive)
    (hnew : m.entries.find? (fun e => e.appId == appId) = none) :
    ∃ victim ∈ m.entries,
      (m.add cb appId name iframe prio now).1 = some victim.appId ∧
      (m.add cb appId name iframe prio now).2.1 = [victim] ∧
      (∀ e ∈ m.entries,
        PRIORITY_WEIGHT victim.priority < PRIORITY_WEIGHT e.priority ∨
        (PRIORITY_WEIGHT victim.priority = PRIORITY_WEIGHT e.priority ∧
         victim.lastActiveAt ≤ e.lastActiveAt)) ∧
      (m.add cb appId name iframe prio now).2.2.entries
        = removeFirstByAppId victim.appId m.entries
            ++ [⟨appId, name, prio, iframe, now, 1, now⟩] ∧
      (m.add cb appId name iframe prio now).2.2.entries.length = m.maxAlive ∧
      m.add cb appId name iframe prio now = m.add cb' appId name iframe prio now := by
  have hne : m.entries ≠ [] := by
    intro h
    rw [h] at hcap
    simp at hcap
    omega
  obtain ⟨e0, rest, hent⟩ := List.exists_cons_of_ne_nil hne
  have hpv : pickVictim m.entries =
      some (rest.foldl (fun best p => if lexLt p best then p else best) e0) := by
    rw [hent]; rfl
  set v := rest.foldl (fun best p => if lexLt p best then p else best) e0 with hv
  obtain ⟨hvmem, hvle⟩ := pickVictim_spec m.entries v hpv
  have hcond : m.maxAlive ≤ m.entries.length := by omega
  have hadd : m.add cb appId name iframe prio now =
      (some v.appId, [v],
       { m with entries := removeFirstByAppId v.appId m.entries ++
           [⟨appId, name, prio, iframe, now, 1, now⟩] }) := by
    unfold KeepAliveManager.add
    rw [hnew, if_pos hcond]
    unfold KeepAliveManager.evictOne
    rw [hpv]
  refine ⟨v, hvmem, ?_, ?_, ?_, ?_, ?_, ?_⟩
  · simp [hadd]
  · simp [hadd]
  · intro e he
    exact hvle e he
  · simp [hadd]
  · simp only [hadd, List.length_append, List.length_cons, List.length_nil]
    have := removeFirstByAppId_length v.appId m.entries ⟨v, hvmem, rfl⟩
    omega
  · rfl

/-- Witness for `keepalive_add_at_capacity_evicts_lowest`: the `normal` entry
"b" is evicted from `c4m` (even under a throwing callback). -/
theorem keepalive_add_at_capacity_evicts_lowest_witness :
    ∃ victim ∈ c4m.entries,
      (c4m.add cbBoom "c" "C" none .normal 9).1 = some victim.appId ∧
      (c4m.add cbBoom "c" "C" none .normal 9).2.1 = [victim] ∧
      (∀ e ∈ c4m.entries,
        PRIORITY_WEIGHT victim.priority < PRIORITY_WEIGHT e.priority ∨
        (PRIORITY_WEIGHT victim.priority = PRIORITY_WEIGHT e.priority ∧
         victim.lastActiveAt ≤ e.lastActiveAt)) ∧
      (c4m.add cbBoom "c" "C" none .normal 9).2.2.entries
        = removeFirstByAppId victim.appId c4m.entries
            ++ [⟨"c", "C", .normal, none, 9, 1, 9⟩] ∧
      (c4m.add cbBoom "c" "C" none .normal 9).2.2.entries.length = c4m.maxAlive ∧
      c4m.add cbBoom "c" "C" none .normal 9 = c4m.add cbOk "c" "C" none .normal 9 :=
  keepalive_add_at_capacity_evicts_lowest c4m cbBoom cbOk "c" "C" none .normal 9
    (by decide) (by decide) (by decide)

/-- Claim C8: a `normal` entry whose visit count reaches `autoPromoteAfter`
is promoted to `high` by `recordVisit` (and by a refreshing `add`), and
neither `recordVisit` nor `add` ever lowers the priority of any entry that
remains tracked (only `setPriority` can demote). -/
theorem keepalive_autopromotion_and_no_demotion (m : KeepAliveManager)
    (i : String) (now : Nat) :
    (∀ e, m.entries.find? (fun x => x.appId == i) = some e →
       e.priority = .normal → m.autoPromoteAfter ≤ e.visitCount + 1 →
       (m.recordVisit i now).entries.find? (fun x => x.appId == i) =
         some { e with lastActiveAt := now, visitCount := e.visitCount + 1,
                       priority := .high }) ∧
    (∀ cb nm ifr prio e, m.entries.find? (fun x => x.appId == i) = some e →
       e.priority = .normal → m.autoPromoteAfter ≤ e.visitCount + 1 →
       (m.add cb i nm ifr prio now).2.2.entries.find? (fun x => x.appId == i) =
         some { e with lastActiveAt := now, visitCount := e.visitCount + 1,
                       keepAliveSince := now, iframe := ifr,
                       priority := .high }) ∧
    ((m.entries.map (fun e => e.appId)).Nodup →
      (∀ e e', e ∈ m.entries → e' ∈ (m.recordVisit i now).entries →
         e.appId = e'.appId →
         PRIORITY_WEIGHT e.priority ≤ PRIORITY_WEIGHT e'.priority) ∧
      (∀ cb nm ifr prio e e', e ∈ m.entries →
         e' ∈ (m.add cb i nm ifr prio now).2.2.entries → e.appId = e'.appId →
         PRIORITY_WEIGHT e.priority ≤ PRIORITY_WEIGHT e'.priority)) := by
  refine ⟨?_, ?_, ?_⟩
  · intro e hfind hnorm hth
    simp only [KeepAliveManager.recordVisit, hfind]
    have := find?_updateFirstByAppId i
      (fun e => maybePromote m.autoPromoteAfter
        { e with lastActiveAt := now, visitCount := e.visitCount + 1 })
      (fun x => by rw [maybePromote_appId]) m.entries e hfind
    rw [this]
    simp [maybePromote, hnorm, hth]
  · intro cb nm ifr prio e hfind hnorm hth
    simp only [KeepAliveManager.add, hfind]
    have := find?_updateFirstByAppId i
      (fun e => maybePromote m.autoPromoteAfter
        { e with lastActiveAt := now, visitCount := e.visitCount + 1,
                 keepAliveSince := now, iframe := ifr })
      (fun x => by rw [maybePromote_appId]) m.entries e hfind
    rw [this]
    simp [maybePromote, hnorm, hth]
  · intro hnd
    constructor
    · intro e e' he he' hab
      rcases hfind : m.entries.find? (fun x => x.appId == i) with _ | e1
      · simp only [KeepAliveManager.recordVisit, hfind] at he'
        rw [nodup_appId_eq hnd he he' hab]
      · simp only [KeepAliveManager.recordVisit, hfind] at he'
        rcases mem_updateFirstByAppId i _ m.entries e' he' with h' | ⟨x, hx, _, hex⟩
        · rw [nodup_appId_eq hnd he h' hab]
        · have hxapp : e'.appId = x.appId := by
            rw [hex, maybePromote_appId]
          have hex2 : e = x := nodup_appId_eq hnd he hx (hab.trans hxapp)
          subst hex2
          rw [hex]
          exact maybePromote_weight m.autoPromoteAfter { e with lastActiveAt := now, visitCount := e.visitCount + 1 }
    · intro cb nm ifr prio e e' he he' hab
      rcases hfind : m.entries.find? (fun x => x.appId == i) with _ | e1
      · simp only [KeepAliveManager.add, hfind] at he'
        rcases List.mem_append.mp he' with hleft | hright
        · have he'' : e' ∈ m.entries := by
            by_cases hcond : m.maxAlive ≤ m.entries.length
            · rw [if_pos hcond] at hleft
              rcases hpv : pickVictim m.entries with _ | vv
              · simp only [KeepAliveManager.evictOne, hpv] at hleft
                exact hleft
              · simp only [KeepAliveManager.evictOne, hpv] at hleft
                exact mem_removeFirstByAppId _ _ _ hleft
            · rw [if_neg hcond] at hleft
              exact hleft
          rw [nodup_appId_eq hnd he he'' hab]
        · have : e' = ⟨i, nm, prio, ifr, now, 1, now⟩ := by
            simpa using hright
          have hei : e.appId = i := by rw [hab, this]
          have := List.find?_eq_none.mp hfind e he
          simp [hei] at this
      · simp only [KeepAliveManager.add, hfind] at he'
        rcases mem_updateFirstByAppId i _ m.entries e' he' with h' | ⟨x, hx, _, hex⟩
        · rw [nodup_appId_eq hnd he h' hab]
        · have hxapp : e'.appId = x.appId := by
            rw [hex, maybePromote_appId]
          have hex2 : e = x := nodup_appId_eq hnd he hx (hab.trans hxapp)
          subst hex2
          rw [hex]
          exact maybePromote_weight m.autoPromoteAfter { e with lastActiveAt := now, visitCount := e.visitCount + 1, keepAliveSince := now, iframe := ifr }

/-- A registry holding one `normal` entry with two recorded visits, one shy
of the promotion threshold. -/
def c8m : KeepAliveManager :=
  { entries := [⟨"a", "A", .normal, none, 10, 2, 0⟩],
    maxAlive := 5, autoPromoteAfter := 3 }

/-- Witness for `keepalive_autopromotion_and_no_demotion`: the third visit
promotes the entry to `high`. -/
theorem keepalive_autopromotion_witness :
    (c8m.recordVisit "a" 50).entries.find? (fun x => x.appId == "a") =
      some ⟨"a", "A", .high, none, 50, 3, 0⟩ :=
  (keepalive_autopromotion_and_no_demotion c8m "a" 50).1
    ⟨"a", "A", .normal, none, 10, 2, 0⟩ (by decide) (by decide) (by decide)

/-! ## Typed RPC channel (`src/core/rpc/channel.ts`)

Windows are numeric identities; `Serializable` values are a small JSON
fragment (arrays/objects omitted — no claim inspects value structure).
Promise settlement is observable through a `settled` log, armed `setTimeout`
handles through `timers`, and `postMessage` sends through `outbox`.  A
`handleMessage` invocation is one browser `message` event delivery. -/

inductive Val where
  | vnull
  | vbool (b : Bool)
  | vnum (n : Int)
  | vstr (s : String)
deriving DecidableEq, Repr

/-- The `RpcMessage` tagged union (all carry the `__aiga_rpc` marker). -/
inductive RpcMsg where
  | call (id method : String) (args : List Val)
  | result (id : String) (value : Val)
  | error (id : String) (message : String)
  | event (id name : String) (data : Val)
deriving DecidableEq, Repr

/-- How one `call()` promise settled. -/
inductive Outcome where
  | resolved (v : Val)
  | rejected (msg : String)
deriving DecidableEq, Repr

/-- One inbound `MessageEvent`: `source` window identity, declared `origin`,
and `data` (`none` when `isRpcMessage` fails). -/
structure InboundEvent where
  source : Option Nat
  origin : String
  data : Option RpcMsg
deriving DecidableEq, Repr

/-- `RpcChannel` state.  `pending` holds the correlation ids of the
pending-call table, `timers` the armed per-call timeout handles
`(id, method, delayMs)`; `settled`, `handlerCalls`, `eventDeliveries` and
`outbox` are observation logs of promise settlements, method-handler
dispatches, event-listener deliveries and `postMessage` sends. -/
structure RpcChannel where
  target : Option Nat
  targetOrigin : String
  idCounter : Nat
  pending : List String
  timers : List (String × String × Nat)
  settled : List (String × Outcome)
  handlers : List String
  handlerCalls : List (String × List Val)
  listeners : List String
  eventDeliveries : List (String × Val)
  outbox : List RpcMsg
  disposed : Bool
deriving DecidableEq, Repr

/-- The constructor (the JS default for `targetOrigin` is the wildcard
`"*"`; `RpcChannel.forApp` passes the origin derived from the app URL). -/
def RpcChannel.new (target : Option Nat) (targetOrigin : String) : RpcChannel :=
  { target := target, targetOrigin := targetOrigin, idCounter := 0,
    pending := [], timers := [], settled := [], handlers := [],
    handlerCalls := [], listeners := [], eventDeliveries := [],
    outbox := [], disposed := false }

/-- `nextId()`: counter is pre-incremented; the `Date.now().toString(36)`
suffix is rendered in decimal here. -/
def nextId (counter now : Nat) : String :=
  "rpc_" ++ toString counter ++ "_" ++ toString now

/-- `expose(method, handler)`: register the method name. -/
def RpcChannel.expose (c : RpcChannel) (method : String) : RpcChannel :=
  { c with handlers := c.handlers ++ [method] }

/-- `on(event, handler)`: remember that the event name has a listener. -/
def RpcChannel.on (c : RpcChannel) (event : String) : RpcChannel :=
  { c with listeners := c.listeners ++ [event] }

/-- `call(method, ...args)`: throws when disposed or without target;
otherwise allocates a fresh id, arms a 30 000 ms timeout (`channel.ts`
hard-codes `30_000`), records the pending entry and posts the `Call`. -/
def RpcChannel.call (c : RpcChannel) (method : String) (args : List Val)
    (now : Nat) : Except String (String × RpcChannel) :=
  if c.disposed then .error "RpcChannel disposed"
  else
    match c.target with
    | none => .error "No target window"
    | some _ =>
      let id := nextId (c.idCounter + 1) now
      .ok (id, { c with
        idCounter := c.idCounter + 1,
        timers := c.timers ++ [(id, method, 30000)],
        pending := c.pending ++ [id],
        outbox := c.outbox ++ [RpcMsg.call id method args] })

/-- The armed `setTimeout` of a `call` firing: only possible while the timer
is armed (the wrapped resolve/reject run `clearTimeout` on first settlement),
it deletes the pending entry and rejects with the timeout error. -/
def RpcChannel.timeoutFire (c : RpcChannel) (id : String) : RpcChannel :=
  match c.timers.find? (fun tm => tm.1 == id) with
  | none => c
  | some (_, method, _) =>
    { c with
      timers := c.timers.filter (fun tm => !(tm.1 == id)),
      pending := c.pending.filter (fun x => !(x == id)),
      settled := c.settled ++
        [(id, .rejected ("RPC call \"" ++ method ++ "\" timed out"))] }

/-- `handleResult`: a miss in the pending table returns; a hit deletes the
entry and runs the stored resolve (which clears the timeout and resolves the
promise). -/
def RpcChannel.handleResult (c : RpcChannel) (id : String) (v : Val) :
    RpcChannel :=
  if c.pending.any (fun x => x == id) then
    { c with
      pending := c.pending.filter (fun x => !(x == id)),
      timers := c.timers.filter (fun tm => !(tm.1 == id)),
      settled := c.settled ++ [(id, .resolved v)] }
  else c

/-- `handleError`: symmetric to `handleResult`, rejecting instead. -/
def RpcChannel.handleError (c : RpcChannel) (id : String) (m : String) :
    RpcChannel :=
  if c.pending.any (fun x => x == id) then
    { c with
      pending := c.pending.filter (fun x => !(x == id)),
      timers := c.timers.filter (fun tm => !(tm.1 == id)),
      settled := c.settled ++ [(id, .rejected m)] }
  else c

/-- `handleCall`: dispatch to the registered handler (logged; the handler's
asynchronous reply is outside this model) or post an unknown-method error. -/
def RpcChannel.handleCall (c : RpcChannel) (id method : String)
    (args : List Val) : RpcChannel :=
  if c.handlers.any (fun h => h == method) then
    { c with handlerCalls := c.handlerCalls ++ [(method, args)] }
  else
    { c with outbox := c.outbox ++
        [RpcMsg.error id ("Unknown method: " ++ method)] }

/-- `handleEvent`: deliver to the listener set of the event name, if any. -/
def RpcChannel.handleEvent (c : RpcChannel) (name : String) (data : Val) :
    RpcChannel :=
  if c.listeners.any (fun l => l == name) then
    { c with eventDeliveries := c.eventDeliveries ++ [(name, data)] }
  else c

/-- `handleMessage`: the guard chain — disposed, protocol discriminator,
strict source validation against the bound target window, then exact origin
match whenever a specific (non-wildcard) `targetOrigin` is configured —
followed by dispatch on the message type. -/
def RpcChannel.handleMessage (c : RpcChannel) (e : InboundEvent) : RpcChannel :=
  if c.disposed then c
  else
    match e.data with
    | none => c
    | some msg =>
      match c.target with
      | none => c
      | some t =>
        if e.source ≠ some t then c
        else if c.targetOrigin ≠ "*" ∧ e.origin ≠ c.targetOrigin then c
        else
          match msg with
          | .call id method args => c.handleCall id method args
          | .result id v => c.handleResult id v
          | .error id m => c.handleError id m
          | .event _ name data => c.handleEvent name data

/-- `dispose()`: reject every outstanding pending call with the
disposed-channel error (each rejection clears its own timer), clear the
tables and detach the target. -/
def RpcChannel.dispose (c : RpcChannel) : RpcChannel :=
  { c with
    disposed := true,
    settled := c.settled ++
      c.pending.map (fun id => (id, Outcome.rejected "RpcChannel disposed")),
    timers := c.timers.filter (fun tm => !(c.pending.any (fun x => x == tm.1))),
    pending := [], handlers := [], listeners := [], target := none }

/-! ### Helper lemmas about the channel -/

theorem any_filter_not_id (l : List String) (id : String) :
    ((l.filter (fun x => !(x == id))).any (fun x => x == id)) = false := by
  induction l with
  | nil => rfl
  | cons x xs ih =>
    cases hx : (x == id) <;> simp [List.filter_cons, hx, ih]

theorem any_filter_not_fst (l : List (String × String × Nat)) (id : String) :
    ((l.filter (fun tm => !(tm.1 == id))).any (fun tm => tm.1 == id)) = false := by
  induction l with
  | nil => rfl
  | cons x xs ih =>
    cases hx : (x.1 == id) <;> simp [List.filter_cons, hx, ih]

theorem find?_filter_not_fst (l : List (String × String × Nat)) (id : String) :
    (l.filter (fun tm => !(tm.1 == id))).find? (fun tm => tm.1 == id) = none := by
  rw [List.find?_eq_none]
  intro x hx
  have := (List.mem_filter.mp hx).2
  simp at this
  simp [this]

/-- Reduction of `handleMessage` for a message from the bound source with the
bound origin: all guards pass and the message is dispatched. -/
theorem handleMessage_dispatch (c : RpcChannel) (t : Nat) (msg : RpcMsg)
    (hd : c.disposed = false) (ht : c.target = some t) :
    c.handleMessage ⟨some t, c.targetOrigin, some msg⟩ =
      (match msg with
       | .call id method args => c.handleCall id method args
       | .result id v => c.handleResult id v
       | .error id m => c.handleError id m
       | .event _ name data => c.handleEvent name data) := by
  unfold RpcChannel.handleMessage
  rw [ht]
  simp [hd]

/-- Claim C5: on a channel bound to a specific (non-wildcard) expected trust
origin, an inbound message whose declared origin differs is silently dropped:
the state — including the pending-call table, settlement log, handler
dispatch log and event delivery log — is completely unchanged. -/
theorem rpc_origin_mismatch_dropped (c : RpcChannel) (e : InboundEvent)
    (msg : RpcMsg)
    (h1 : c.targetOrigin ≠ "*")
    (h2 : e.origin ≠ c.targetOrigin)
    (h3 : e.data = some msg) :
    c.handleMessage e = c := by
  by_cases hd : c.disposed
  · simp [RpcChannel.handleMessage, hd]
  · rcases ht : c.target with _ | t
    · simp [RpcChannel.handleMessage, hd, h3, ht]
    · by_cases hs : e.source = some t
      · simp [RpcChannel.handleMessage, hd, h3, ht, hs, h1, h2]
      · simp [RpcChannel.handleMessage, hd, h3, ht, hs]

/-- A strict channel bound to window `7` and an origin. -/
def c5ch : RpcChannel := RpcChannel.new (some 7) "https://app.example.com"

/-- An inbound result carrying a foreign origin from the bound window. -/
def c5ev : InboundEvent :=
  { source := some 7, origin := "https://evil.example.com",
    data := some (RpcMsg.result "rpc_1_0" (Val.vstr "x")) }

/-- Witness for `rpc_origin_mismatch_dropped`. -/
theorem rpc_origin_mismatch_dropped_witness :
    c5ch.handleMessage c5ev = c5ch :=
  rpc_origin_mismatch_dropped c5ch c5ev (RpcMsg.result "rpc_1_0" (Val.vstr "x"))
    (by decide) (by decide) rfl

/-- Claim C6: a pending call settles exactly once, first outcome wins.  If a
matching `Result` arrives while pending, the promise resolves with its value,
the pending entry and timer vanish, and every later same-id `Result`,
`Error` or timeout firing leaves the channel unchanged.  Symmetrically, if
the timeout fires while armed, the promise rejects with the timeout error,
the pending entry vanishes, and later same-id messages or firings have no
effect. -/
theorem rpc_settles_exactly_once (c : RpcChannel) (t : Nat) (id : String)
    (v w : Val) (m2 meth : String) (delay : Nat)
    (hd : c.disposed = false)
    (ht : c.target = some t)
    (hp : c.pending.any (fun x => x == id) = true) :
    ((c.handleMessage ⟨some t, c.targetOrigin, some (.result id v)⟩).settled
        = c.settled ++ [(id, Outcome.resolved v)] ∧
     (c.handleMessage ⟨some t, c.targetOrigin, some (.result id v)⟩).pending.any
        (fun x => x == id) = false ∧
     (c.handleMessage ⟨some t, c.targetOrigin, some (.result id v)⟩).timers.any
        (fun tm => tm.1 == id) = false ∧
     (c.handleMessage ⟨some t, c.targetOrigin, some (.result id v)⟩).handleMessage
        ⟨some t, c.targetOrigin, some (.result id w)⟩
        = c.handleMessage ⟨some t, c.targetOrigin, some (.result id v)⟩ ∧
     (c.handleMessage ⟨some t, c.targetOrigin, some (.result id v)⟩).handleMessage
        ⟨some t, c.targetOrigin, some (.error id m2)⟩
        = c.handleMessage ⟨some t, c.targetOrigin, some (.result id v)⟩ ∧
     (c.handleMessage ⟨some t, c.targetOrigin, some (.result id v)⟩).timeoutFire id
        = c.handleMessage ⟨some t, c.targetOrigin, some (.result id v)⟩) ∧
    (c.timers.find? (fun tm => tm.1 == id) = some (id, meth, delay) →
      ((c.timeoutFire id).settled = c.settled ++
          [(id, Outcome.rejected ("RPC call \"" ++ meth ++ "\" timed out"))] ∧
       (c.timeoutFire id).pending.any (fun x => x == id) = false ∧
       (c.timeoutFire id).handleMessage
          ⟨some t, c.targetOrigin, some (.result id v)⟩ = c.timeoutFire id ∧
       (c.timeoutFire id).handleMessage
          ⟨some t, c.targetOrigin, some (.error id m2)⟩ = c.timeoutFire id ∧
       (c.timeoutFire id).timeoutFire id = c.timeoutFire id)) := by
  have hres : c.handleResult id v =
      { c with
        pending := c.pending.filter (fun x => !(x == id)),
        timers := c.timers.filter (fun tm => !(tm.1 == id)),
        settled := c.settled ++ [(id, .resolved v)] } := by
    unfold RpcChannel.handleResult
    rw [if_pos hp]
  have h1 : c.handleMessage ⟨some t, c.targetOrigin, some (.result id v)⟩ =
      { c with
        pending := c.pending.filter (fun x => !(x == id)),
        timers := c.timers.filter (fun tm => !(tm.1 == id)),
        settled := c.settled ++ [(id, .resolved v)] } := by
    rw [handleMessage_dispatch c t _ hd ht]
    exact hres
  constructor
  · rw [h1]
    refine ⟨rfl, any_filter_not_id c.pending id, any_filter_not_fst c.timers id,
      ?_, ?_, ?_⟩
    · rw [handleMessage_dispatch _ t _ (by exact hd) (by exact ht)]
      simp [RpcChannel.handleResult, any_filter_not_id]
    · rw [handleMessage_dispatch _ t _ (by exact hd) (by exact ht)]
      simp [RpcChannel.handleError, any_filter_not_id]
    · unfold RpcChannel.timeoutFire
      dsimp only
      rw [find?_filter_not_fst]
  · intro hfind
    have hto : c.timeoutFire id =
        { c with
          timers := c.timers.filter (fun tm => !(tm.1 == id)),
          pending := c.pending.filter (fun x => !(x == id)),
          settled := c.settled ++
            [(id, .rejected ("RPC call \"" ++ meth ++ "\" timed out"))] } := by
      unfold RpcChannel.timeoutFire
      rw [hfind]
    rw [hto]
    refine ⟨rfl, any_filter_not_id c.pending id, ?_, ?_, ?_⟩
    · rw [handleMessage_dispatch _ t _ (by exact hd) (by exact ht)]
      simp [RpcChannel.handleResult, any_filter_not_id]
    · rw [handleMessage_dispatch _ t _ (by exact hd) (by exact ht)]
      simp [RpcChannel.handleError, any_filter_not_id]
    · unfold RpcChannel.timeoutFire
      dsimp only
      rw [find?_filter_not_fst]

/-- Projection: the correlation id handed back by a successful `call`. -/
def callId (c : RpcChannel) (method : String) (args : List Val) (now : Nat) :
    Option String :=
  match c.call method args now with
  | .ok (id, _) => some id
  | .error _ => none

/-- Projection: the channel state after a successful `call` (unchanged when
`call` throws). -/
def callState (c : RpcChannel) (method : String) (args : List Val) (now : Nat) :
    RpcChannel :=
  match c.call method args now with
  | .ok (_, c') => c'
  | .error _ => c

/-- A strict channel bound to window `3`, after `call("greet", "World")`. -/
def c6ch : RpcChannel :=
  callState (RpcChannel.new (some 3) "https://a.example.com") "greet"
    [Val.vstr "World"] 0

/-- Witness for `rpc_settles_exactly_once` on the concrete pending call
`rpc_1_0` of `c6ch`: a matching result resolves it, and — in the alternate
branch — a timeout firing rejects it with the greet timeout error. -/
theorem rpc_settles_exactly_once_witness :
    (c6ch.handleMessage ⟨some 3, c6ch.targetOrigin,
        some (.result "rpc_1_0" (Val.vstr "Hello, World!"))⟩).settled
      = c6ch.settled ++ [("rpc_1_0", Outcome.resolved (Val.vstr "Hello, World!"))] ∧
    (c6ch.timeoutFire "rpc_1_0").settled
      = c6ch.settled ++ [("rpc_1_0", Outcome.rejected "RPC call \"greet\" timed out")] :=
  ⟨(rpc_settles_exactly_once c6ch 3 "rpc_1_0" (Val.vstr "Hello, World!")
      Val.vnull "e" "greet" 30000 (by decide) (by decide) (by decide)).1.1,
   ((rpc_settles_exactly_once c6ch 3 "rpc_1_0" (Val.vstr "Hello, World!")
      Val.vnull "e" "greet" 30000 (by decide) (by decide) (by decide)).2
      (by decide)).1⟩

/-- A strict channel bound to window `0`. -/
def c2ch : RpcChannel := RpcChannel.new (some 0) "https://app.example.com"

/-- Claim C2: `call` on a live channel arms a per-call timeout that, when it
fires with no response, rejects the promise with a timeout error and removes
the pending-call entry — but its delay is hard-coded to 30 000 ms in
`channel.ts` (`30_000`), not the configured `rpcTimeout` documented in
`AigaConfig` as defaulting to 10 000 ms, which the channel never reads. -/
theorem rpc_call_timeout_hardcoded_30000 :
    callId c2ch "m" [] 0 = some "rpc_1_0" ∧
    (callState c2ch "m" [] 0).timers = [("rpc_1_0", "m", 30000)] ∧
    ((callState c2ch "m" [] 0).timeoutFire "rpc_1_0").settled
      = [("rpc_1_0", Outcome.rejected "RPC call \"m\" timed out")] ∧
    ((callState c2ch "m" [] 0).timeoutFire "rpc_1_0").pending = [] ∧
    ((callState c2ch "m" [] 0).timeoutFire "rpc_1_0").timers = [] ∧
    (30000 : Nat) ≠ 10000 := by
  decide

/-! ## `<mf-app>` lifecycle serialization (`mf-app.ts`)

`lifecycleLock` is a promise chain: every `connectedCallback`,
`disconnectedCallback` (and `src`-change remount) appends its operation with
`lock = lock.then(op)`, so operations start in arrival order and the next one
starts only after the previous settles.  The embedding is the event-loop
semantics of that chain: a FIFO `queue` of not-yet-started operations, at
most one `running` operation (with a count of remaining suspension points,
chosen by the environment at arrival), and the element state.  Callback
arrivals and scheduler ticks interleave arbitrarily in a trace.  An
operation's effect is applied when it completes; this is faithful because
between start and completion only arrivals run synchronously, and they do not
write the fields the operation reads (`connectedCallback` captures
`inKeepAlive` into `shouldRestore` at arrival — as the source comments — and
only renders/syncs attributes). -/

/-- `AppStatus` from `core/types.ts`. -/
inductive AppStatus where
  | idle
  | loading
  | mounting
  | mounted
  | unmounting
  | unmounted
  | error
deriving DecidableEq, Repr

/-- The `MfAppElement` fields the lifecycle operations read and write, plus
the keep-alive registry membership of this instance (`aiga.keepAlive`). -/
structure MfState where
  mounted : Bool
  inKeepAlive : Bool
  status : AppStatus
  keepAliveAttr : Bool
  registryHas : Bool
deriving DecidableEq, Repr

/-- A queued lifecycle operation: the closure chained onto `lifecycleLock`.
`connectOp` carries the `shouldRestore` flag captured at arrival and the
environment's outcome for the mount/restore (`ok = false`: adapter failure or
load timeout, landing in the `catch`). -/
inductive LifeOp where
  | connectOp (shouldRestore : Bool) (ok : Bool)
  | disconnectOp
deriving DecidableEq, Repr

/-- Effect of one lifecycle operation on the element state, as of its
completion (`mount()` / `restoreFromKeepAlive()` / `unmountApp()`):
mount returns early when already mounted, succeeds to `mounted` or lands in
`error`; unmount returns early when not mounted, else ends `unmounted`,
entering the keep-alive registry when the attribute is set. -/
def applyOp (s : MfState) : LifeOp → MfState
  | .connectOp shouldRestore ok =>
    if shouldRestore && s.registryHas then
      if ok then { s with mounted := true, inKeepAlive := false, status := .mounted }
      else { s with status := .error }
    else
      if s.mounted then s
      else if ok then { s with mounted := true, inKeepAlive := false, status := .mounted }
      else { s with status := .error }
  | .disconnectOp =>
    if !s.mounted then s
    else if s.keepAliveAttr then
      { s with mounted := false, inKeepAlive := true, registryHas := true,
               status := .unmounted }
    else { s with mounted := false, inKeepAlive := false, status := .unmounted }

/-- A DOM callback: attach (`connectedCallback`, with the mount outcome and
the number of suspension points the mount will take) or detach
(`disconnectedCallback`). -/
inductive CbEv where
  | attach (ok : Bool) (dur : Nat)
  | detach (dur : Nat)
deriving DecidableEq, Repr

/-- One atomic step of the interleaving: a callback firing or the event loop
advancing the chained operations. -/
inductive TraceEv where
  | cb (e : CbEv)
  | tick
deriving DecidableEq, Repr

/-- Scheduler state: element state, FIFO of chained-but-not-started
operations, at most one in-flight operation with remaining suspension
points, the log of completed operations in execution order, and the log of
all operations in arrival order. -/
structure Sched where
  st : MfState
  queue : List (LifeOp × Nat)
  running : Option (LifeOp × Nat)
  done : List LifeOp
  enqueued : List LifeOp
deriving DecidableEq, Repr

/-- A callback fires: `lifecycleLock = lifecycleLock.then(op)` appends the
operation; `connectedCallback` captures `this.inKeepAlive` now. -/
def Sched.arrive (s : Sched) : CbEv → Sched
  | .attach ok dur =>
    let op := LifeOp.connectOp s.st.inKeepAlive ok
    { s with queue := s.queue ++ [(op, dur)], enqueued := s.enqueued ++ [op] }
  | .detach dur =>
    { s with queue := s.queue ++ [(LifeOp.disconnectOp, dur)],
             enqueued := s.enqueued ++ [LifeOp.disconnectOp] }

/-- The event loop advances: an in-flight operation passes one suspension
point or completes (applying its effect); otherwise the next chained
operation starts — only when nothing is in flight, since `.then`
continuations run after the previous promise settles. -/
def Sched.tick (s : Sched) : Sched :=
  match s.running with
  | some (op, n + 1) => { s with running := some (op, n) }
  | some (op, 0) =>
    { s with st := applyOp s.st op, running := none, done := s.done ++ [op] }
  | none =>
    match s.queue with
    | [] => s
    | (op, d) :: rest => { s with running := some (op, d), queue := rest }

def Sched.step (s : Sched) : TraceEv → Sched
  | .cb e => s.arrive e
  | .tick => s.tick

/-- A fresh element: `status: 'idle'`, not mounted, not kept alive; the
claims' scenarios run with the `keep-alive` attribute unset. -/
def initMfState : MfState :=
  { mounted := false, inKeepAlive := false, status := .idle,
    keepAliveAttr := false, registryHas := false }

def initSched : Sched :=
  { st := initMfState, queue := [], running := none, done := [], enqueued := [] }

def runTrace (tr : List TraceEv) : Sched :=
  tr.foldl Sched.step initSched

def inflightOps (s : Sched) : List LifeOp :=
  match s.running with
  | some (op, _) => [op]
  | none => []

def queueOps (s : Sched) : List LifeOp :=
  s.queue.map (fun q => q.1)

/-- The callbacks of a trace, in arrival order. -/
def cbsOf (tr : List TraceEv) : List CbEv :=
  tr.filterMap (fun e => match e with | .cb c => some c | .tick => none)

/-- The operation a callback enqueues when the element is not kept alive. -/
def opOfCb : CbEv → LifeOp
  | .attach ok _ => .connectOp false ok
  | .detach _ => .disconnectOp

/-- Callback shapes (outcome kept, duration forgotten). -/
inductive CbKind where
  | attachK (ok : Bool)
  | detachK
deriving DecidableEq, Repr

def kindOf : CbEv → CbKind
  | .attach ok _ => .attachK ok
  | .detach _ => .detachK

def opOfKind : CbKind → LifeOp
  | .attachK ok => .connectOp false ok
  | .detachK => .disconnectOp

/-- Alternating attach/detach starting with a successful attach. -/
def altKinds (n : Nat) : List CbKind :=
  (List.range n).map (fun i => if i % 2 = 0 then CbKind.attachK true else CbKind.detachK)

def mountedState : MfState :=
  { mounted := true, inKeepAlive := false, status := .mounted,
    keepAliveAttr := false, registryHas := false }

def unmountedState : MfState :=
  { mounted := false, inKeepAlive := false, status := .unmounted,
    keepAliveAttr := false, registryHas := false }

/-! ### Scheduler invariant -/

/-- Reachable-scheduler invariant (keep-alive off): completed, in-flight and
queued operations partition the arrival order; the element state is the fold
of the completed operations; the keep-alive flags stay clear. -/
def SchedInv (s : Sched) : Prop :=
  (s.done ++ inflightOps s ++ queueOps s = s.enqueued) ∧
  (s.st = List.foldl applyOp initMfState s.done) ∧
  s.st.keepAliveAttr = false ∧ s.st.inKeepAlive = false ∧ s.st.registryHas = false

theorem applyOp_preserves (s : MfState) (op : LifeOp)
    (h1 : s.keepAliveAttr = false) (h2 : s.inKeepAlive = false)
    (h3 : s.registryHas = false) :
    (applyOp s op).keepAliveAttr = false ∧ (applyOp s op).inKeepAlive = false ∧
    (applyOp s op).registryHas = false := by
  cases op with
  | connectOp sr ok =>
    simp only [applyOp, h3, Bool.and_false, Bool.false_eq_true, if_false]
    by_cases hm : s.mounted
    · simp [hm, h1, h2, h3]
    · by_cases hk : ok <;> simp [hm, hk, h1, h2, h3]
  | disconnectOp =>
    by_cases hm : s.mounted
    · simp [applyOp, hm, h1, h2, h3]
    · simp [applyOp, hm, h1, h2, h3]

theorem schedInv_step (s : Sched) (ev : TraceEv) (h : SchedInv s) :
    SchedInv (s.step ev) ∧
    (s.step ev).enqueued = s.enqueued ++
      (match ev with | .cb e => [opOfCb e] | .tick => []) := by
  obtain ⟨hq, hst, h1, h2, h3⟩ := h
  cases ev with
  | cb e =>
    cases e with
    | attach ok dur =>
      refine ⟨⟨?_, hst, h1, h2, h3⟩, ?_⟩
      · simp only [Sched.step, Sched.arrive, queueOps, List.map_append,
          List.map_cons, List.map_nil, inflightOps]
        simp only [queueOps, inflightOps] at hq
        rw [← List.append_assoc, hq]
      · simp [Sched.step, Sched.arrive, opOfCb, h2]
    | detach dur =>
      refine ⟨⟨?_, hst, h1, h2, h3⟩, ?_⟩
      · simp only [Sched.step, Sched.arrive, queueOps, List.map_append,
          List.map_cons, List.map_nil, inflightOps]
        simp only [queueOps, inflightOps] at hq
        rw [← List.append_assoc, hq]
      · simp [Sched.step, Sched.arrive, opOfCb]
  | tick =>
    rcases hr : s.running with _ | ⟨op, n⟩
    · rcases hqu : s.queue with _ | ⟨⟨op, d⟩, rest⟩
      · simp only [Sched.step, Sched.tick, hr, hqu]
        exact ⟨⟨by simpa [hr, hqu] using hq, hst, h1, h2, h3⟩, by simp⟩
      · simp only [Sched.step, Sched.tick, hr, hqu]
        refine ⟨⟨?_, hst, h1, h2, h3⟩, by simp⟩
        simp only [inflightOps, queueOps, hr, hqu, List.map_cons,
          List.nil_append, List.append_nil] at hq
        simp only [inflightOps, queueOps, List.map_cons]
        simpa using hq
    · cases n with
      | zero =>
        simp only [Sched.step, Sched.tick, hr]
        refine ⟨⟨?_, ?_, ?_, ?_, ?_⟩, by simp⟩
        · simp only [inflightOps, queueOps] at hq ⊢
          simp only [hr] at hq
          simpa using hq
        · rw [List.foldl_append, ← hst]
          rfl
        · exact (applyOp_preserves s.st op h1 h2 h3).1
        · exact (applyOp_preserves s.st op h1 h2 h3).2.1
        · exact (applyOp_preserves s.st op h1 h2 h3).2.2
      | succ k =>
        simp only [Sched.step, Sched.tick, hr]
        refine ⟨⟨?_, hst, h1, h2, h3⟩, by simp⟩
        simp only [inflightOps, queueOps] at hq ⊢
        simp only [hr] at hq
        exact hq

theorem sched_run (tr : List TraceEv) :
    ∀ s0 : Sched, SchedInv s0 →
      SchedInv (tr.foldl Sched.step s0) ∧
      (tr.foldl Sched.step s0).enqueued
        = s0.enqueued ++ (cbsOf tr).map opOfCb := by
  induction tr with
  | nil => intro s0 h0; exact ⟨h0, by simp [cbsOf]⟩
  | cons ev rest ih =>
    intro s0 h0
    obtain ⟨hinv, henq⟩ := schedInv_step s0 ev h0
    obtain ⟨hinv', henq'⟩ := ih (s0.step ev) hinv
    refine ⟨by simpa using hinv', ?_⟩
    simp only [List.foldl_cons]
    rw [henq', henq]
    cases ev with
    | cb e => simp [cbsOf, List.filterMap_cons, List.append_assoc]
    | tick => simp [cbsOf, List.filterMap_cons]

theorem opOfCb_eq (e : CbEv) : opOfCb e = opOfKind (kindOf e) := by
  cases e <;> rfl

theorem altKinds_succ (n : Nat) :
    altKinds (n + 1) = altKinds n ++
      [if n % 2 = 0 then CbKind.attachK true else CbKind.detachK] := by
  simp [altKinds, List.range_succ]

theorem fold_altKinds (n : Nat) :
    List.foldl applyOp initMfState ((altKinds n).map opOfKind) =
      if n = 0 then initMfState
      else if n % 2 = 1 then mountedState else unmountedState := by
  induction n with
  | zero => rfl
  | succ k ih =>
    rw [altKinds_succ, List.map_append, List.foldl_append, ih]
    by_cases hk0 : k % 2 = 0
    · have hlast : (if k % 2 = 0 then CbKind.attachK true else CbKind.detachK)
          = CbKind.attachK true := if_pos hk0
      have hrhs : (if k + 1 = 0 then initMfState
          else if (k + 1) % 2 = 1 then mountedState else unmountedState)
          = mountedState := by
        rw [if_neg (by omega), if_pos (by omega)]
      rw [hlast, hrhs]
      by_cases hk : k = 0
      · subst hk
        decide
      · rw [if_neg hk, if_neg (by omega)]
        decide
    · have hlast : (if k % 2 = 0 then CbKind.attachK true else CbKind.detachK)
          = CbKind.detachK := if_neg hk0
      have hrhs : (if k + 1 = 0 then initMfState
          else if (k + 1) % 2 = 1 then mountedState else unmountedState)
          = unmountedState := by
        rw [if_neg (by omega), if_neg (by omega)]
      rw [hlast, hrhs, if_neg (by omega), if_pos (by omega)]
      decide

/-- Claim C3: on every interleaving of attach/detach callbacks with event-loop
steps, lifecycle operations run one at a time in FIFO arrival order — the
completed, at-most-one in-flight, and queued operations always partition the
arrival log, so a detach arriving mid-mount starts only after the mount
settles and two mounts never overlap — and, once the queue drains, the element
state equals the fold of the operations in arrival order (independent of the
interleaving); for an alternating attach-first sequence of `n` successful
operations it ends in exactly one terminal state: `mounted` for odd `n`,
`unmounted` for even `n`. -/
theorem mfapp_lifecycle_serialized (tr : List TraceEv) (n : Nat)
    (hcb : (cbsOf tr).map kindOf = altKinds n)
    (hdrain : (runTrace tr).queue = [] ∧ (runTrace tr).running = none)
    (hn : 0 < n) :
    (∀ pre suf, tr = pre ++ suf →
      (runTrace pre).done ++ inflightOps (runTrace pre) ++ queueOps (runTrace pre)
        = (runTrace pre).enqueued) ∧
    (runTrace tr).st = List.foldl applyOp initMfState ((cbsOf tr).map opOfCb) ∧
    ((runTrace tr).st.status
        = if n % 2 = 1 then AppStatus.mounted else AppStatus.unmounted) ∧
    ((runTrace tr).st.mounted = true ↔ n % 2 = 1) := by
  have base : SchedInv initSched := ⟨rfl, rfl, rfl, rfl, rfl⟩
  obtain ⟨⟨hq, hst, _, _, _⟩, henq⟩ := sched_run tr initSched base
  have hinf : inflightOps (tr.foldl Sched.step initSched) = [] := by
    have h2 := hdrain.2
    simp only [runTrace] at h2
    simp [inflightOps, h2]
  have hqo : queueOps (tr.foldl Sched.step initSched) = [] := by
    have h1 := hdrain.1
    simp only [runTrace] at h1
    simp [queueOps, h1]
  have hdone : (tr.foldl Sched.step initSched).done
      = (tr.foldl Sched.step initSched).enqueued := by
    rw [hinf, hqo] at hq
    simpa using hq
  have hmapeq : ∀ l : List CbEv, l.map opOfCb = (l.map kindOf).map opOfKind := by
    intro l
    rw [List.map_map]
    exact List.map_congr_left (fun e _ => opOfCb_eq e)
  have hstate : (runTrace tr).st
      = List.foldl applyOp initMfState ((cbsOf tr).map opOfCb) := by
    simp only [runTrace]
    rw [hst, hdone, henq]
    simp [initSched]
  have hfinal : (runTrace tr).st
      = if n % 2 = 1 then mountedState else unmountedState := by
    rw [hstate, hmapeq, hcb, fold_altKinds, if_neg (by omega)]
  refine ⟨?_, hstate, ?_, ?_⟩
  · intro pre suf hps
    exact (sched_run pre initSched base).1.1
  · rw [hfinal]
    by_cases hp : n % 2 = 1 <;> simp [hp, mountedState, unmountedState]
  · rw [hfinal]
    by_cases hp : n % 2 = 1 <;> simp [hp, mountedState, unmountedState]

/-- A concrete interleaving: attach; the mount starts; a detach arrives
mid-mount; the mount finishes; the unmount starts and finishes. -/
def c3tr : List TraceEv :=
  [.cb (.attach true 1), .tick, .cb (.detach 0), .tick, .tick, .tick, .tick]

/-- Witness for `mfapp_lifecycle_serialized` on `c3tr` (`n = 2`): the
detach that arrived mid-mount is applied after the mount settles, ending
unmounted. -/
theorem mfapp_lifecycle_serialized_witness :
    (runTrace c3tr).st.status = AppStatus.unmounted ∧
    (runTrace c3tr).st.mounted = false := by
  have h := mfapp_lifecycle_serialized c3tr 2 (by decide)
    ⟨by decide, by decide⟩ (by decide)
  refine ⟨by simpa using h.2.2.1, ?_⟩
  have := h.2.2.2
  simp at this
  exact this
